import Mathlib

/-!
Verification of the signal-to-order execution and trailing-stop engine.

The definitions below are a shallow embedding of the Python sources:
`utils.py` (signal normalizer), `app.py` (webhook dispatch and EXIT
handling), `binance_rest.py` (REST client, signature, order placement,
and an older stream-handler snapshot with a take-profit tracker), and
`binance_websocket.py` (stream handler, trailing-stop controller,
reconnection supervisor).

Python floats are modelled as exact decimals (`PyFloat`, an integer
mantissa with a power-of-ten scale) or as rationals; Python dicts keyed
by symbol are modelled as association lists; REST calls are modelled by
emitting `RestAction` values and by oracle parameters carrying the values
the exchange would return.
-/

/-! ## Association-list helpers (Python dict, keyed by symbol) -/

def aget {α : Type} (k : String) : List (String × α) → Option α
  | [] => none
  | (k', v) :: t => if k' = k then some v else aget k t

def aset {α : Type} (k : String) (v : α) : List (String × α) → List (String × α)
  | [] => [(k, v)]
  | (k', v') :: t => if k' = k then (k, v) :: t else (k', v') :: aset k v t

def aerase {α : Type} (k : String) : List (String × α) → List (String × α)
  | [] => []
  | (k', v') :: t => if k' = k then aerase k t else (k', v') :: aerase k t

/-! ## Signal normalizer (`utils.parse_webhook_to_payload`) -/

/-- An exact decimal, modelling the Python floats produced by parsing the
"New strategy position is" number: the value is `num / 10 ^ scale`. -/
structure PyFloat where
  num : Int
  scale : Nat
deriving DecidableEq, Repr

def PyFloat.toRat (f : PyFloat) : ℚ := (f.num : ℚ) / 10 ^ f.scale

def natOfDigits (cs : List Char) : Nat :=
  cs.foldl (fun a c => a * 10 + (c.toNat - 48)) 0

/-- Split a character list on `'.'` (the shape test used to model
Python `float()` on decimal literals). -/
def splitDots : List Char → List (List Char)
  | [] => [[]]
  | c :: cs =>
    if c = '.' then [] :: splitDots cs
    else
      match splitDots cs with
      | [] => [[c]]
      | h :: t => (c :: h) :: t

/-- Python `float(s)` on decimal literals: optional sign, digits, optional
fractional part, at least one digit; anything else raises `ValueError`
(modelled as `none`). -/
def parseFloat (cs : List Char) : Option PyFloat :=
  let signed : Int × List Char :=
    match cs with
    | '-' :: r => (-1, r)
    | '+' :: r => (1, r)
    | _ => (1, cs)
  match splitDots signed.2 with
  | [ip] =>
    if ip.all Char.isDigit && !ip.isEmpty then
      some ⟨signed.1 * (natOfDigits ip : Int), 0⟩
    else none
  | [ip, fp] =>
    if ip.all Char.isDigit && fp.all Char.isDigit && !(ip.isEmpty && fp.isEmpty) then
      some ⟨signed.1 * ((natOfDigits ip * 10 ^ fp.length + natOfDigits fp : Nat) : Int), fp.length⟩
    else none
  | _ => none

/-- Drop `sep` from the front of `cs`, if it is a prefix. -/
def dropPre : List Char → List Char → Option (List Char)
  | [], rest => some rest
  | _ :: _, [] => none
  | s :: ss, c :: cs => if c = s then dropPre ss cs else none

/-- The suffix of `cs` after the last occurrence of `sep`, or `none` when
`sep` does not occur.  For the marker used here (which cannot overlap
itself) this equals Python's `cs.split(sep)[-1]` together with the
`sep in cs` test. -/
def afterLast (sep : List Char) : List Char → Option (List Char)
  | [] => none
  | c :: rest =>
    match afterLast sep rest with
    | some r => some r
    | none => dropPre sep (c :: rest)

def trimChars (cs : List Char) : List Char :=
  ((cs.dropWhile Char.isWhitespace).reverse.dropWhile Char.isWhitespace).reverse

def rstripDots (cs : List Char) : List Char :=
  (cs.reverse.dropWhile (· == '.')).reverse

def markerStr : String := "New strategy position is"

inductive PErr
  | keyError (k : String)
  | valueError
deriving DecidableEq, Repr

instance {ε α : Type} [DecidableEq ε] [DecidableEq α] : DecidableEq (Except ε α) := fun x y =>
  match x, y with
  | .ok a, .ok b =>
    match decEq a b with
    | .isTrue h => .isTrue (congrArg Except.ok h)
    | .isFalse h => .isFalse (fun hc => h (Except.ok.inj hc))
  | .ok _, .error _ => .isFalse (fun hc => Except.noConfusion hc)
  | .error _, .ok _ => .isFalse (fun hc => Except.noConfusion hc)
  | .error e, .error e' =>
    match decEq e e' with
    | .isTrue h => .isTrue (congrArg Except.error h)
    | .isFalse h => .isFalse (fun hc => h (Except.error.inj hc))

/-- Lines 25–30 of `utils.py`: if the marker occurs in `value`, parse the
text after it (stripped, trailing dots removed) as a float, raising
`ValueError` on failure; otherwise default to `0.0`. -/
def newPositionOf (value : String) : Except PErr PyFloat :=
  match afterLast markerStr.data value.data with
  | none => .ok ⟨0, 0⟩
  | some remainder =>
    match parseFloat (rstripDots (trimChars remainder)) with
    | some f => .ok f
    | none => .error .valueError

/-- Lines 32–41 of `utils.py`: the `(trade_type, side)` pair determined by
the sign of the parsed position (`num` carries the sign of the value). -/
def tradeTypeSide (f : PyFloat) : String × String :=
  if f.num = 0 then ("EXIT", "BUY")
  else if f.num < 0 then ("SELL", "SELL")
  else ("BUY", "BUY")

structure TradeInfo where
  ticker : Option String
  contracts : Option String
  leverage : Option String
  take_profit : Option String
deriving DecidableEq, Repr

structure WebhookData where
  value : Option String
  trade_info : Option TradeInfo
  timestamp : Option String
deriving DecidableEq, Repr

structure Payload where
  symbol : String
  side : String
  quantity : String
  leverage : String
  take_profit : Option String
  trade_type : String
  timestamp : String
deriving DecidableEq, Repr

/-- `utils.parse_webhook_to_payload`: missing `value`/`trade_info`/
`ticker`/`contracts` keys raise `KeyError`; a missing or empty (falsy)
`timestamp` raises `ValueError`; a non-numeric position text raises
`ValueError`; otherwise the payload is returned. -/
def parse_webhook_to_payload (d : WebhookData) : Except PErr Payload :=
  match d.value with
  | none => .error (.keyError "value")
  | some value =>
    match d.trade_info with
    | none => .error (.keyError "trade_info")
    | some ti =>
      match d.timestamp with
      | none => .error .valueError
      | some ts =>
        if ts = "" then .error .valueError
        else
          match newPositionOf value with
          | .error e => .error e
          | .ok f =>
            match ti.ticker with
            | none => .error (.keyError "ticker")
            | some ticker =>
              match ti.contracts with
              | none => .error (.keyError "contracts")
              | some contracts =>
                .ok { symbol := ticker
                      side := (tradeTypeSide f).2
                      quantity := contracts
                      leverage := ti.leverage.getD "1"
                      take_profit := ti.take_profit
                      trade_type := (tradeTypeSide f).1
                      timestamp := ts }

/-- Whether `parse_webhook_to_payload` raises. -/
def parseFails (d : WebhookData) : Bool :=
  match parse_webhook_to_payload d with
  | .ok _ => false
  | .error _ => true

/-- The exact failure condition of the normalizer, read off the spec-side
data: a missing `value` or `trade_info`, a missing or empty timestamp,
a present marker whose remainder is non-numeric, or a missing
`ticker`/`contracts`.  An *absent* marker is not an error, and the
timestamp text is never parsed numerically. -/
def malformedAlert (d : WebhookData) : Bool :=
  match d.value with
  | none => true
  | some v =>
    match d.trade_info with
    | none => true
    | some ti =>
      (match d.timestamp with | none => true | some ts => ts == "") ||
      (match afterLast markerStr.data v.data with
       | none => false
       | some r => (parseFloat (rstripDots (trimChars r))).isNone) ||
      ti.ticker.isNone || ti.contracts.isNone

/-! ## Signed requests (`BinanceRESTClient.create_signature`) -/

/-- 32-bit truncation (Python ints are unbounded; SHA-256 works mod 2^32). -/
def w32 (n : Nat) : Nat := n % 4294967296

def rotr32 (x k : Nat) : Nat := w32 ((x >>> k) ||| (x <<< (32 - k)))

def shaChF (x y z : Nat) : Nat := (x &&& y) ^^^ ((x ^^^ 4294967295) &&& z)

def shaMajF (x y z : Nat) : Nat := (x &&& y) ^^^ (x &&& z) ^^^ (y &&& z)

def shaBigS0 (x : Nat) : Nat := rotr32 x 2 ^^^ rotr32 x 13 ^^^ rotr32 x 22

def shaBigS1 (x : Nat) : Nat := rotr32 x 6 ^^^ rotr32 x 11 ^^^ rotr32 x 25

def shaSmlS0 (x : Nat) : Nat := rotr32 x 7 ^^^ rotr32 x 18 ^^^ (x >>> 3)

def shaSmlS1 (x : Nat) : Nat := rotr32 x 17 ^^^ rotr32 x 19 ^^^ (x >>> 10)

def sha256K : List Nat :=
  [1116352408, 1899447441, 3049323471, 3921009573, 961987163,
   1508970993, 2453635748, 2870763221, 3624381080, 310598401,
   607225278, 1426881987, 1925078388, 2162078206, 2614888103,
   3248222580, 3835390401, 4022224774, 264347078, 604807628,
   770255983, 1249150122, 1555081692, 1996064986, 2554220882,
   2821834349, 2952996808, 3210313671, 3336571891, 3584528711,
   113926993, 338241895, 666307205, 773529912, 1294757372,
   1396182291, 1695183700, 1986661051, 2177026350, 2456956037,
   2730485921, 2820302411, 3259730800, 3345764771, 3516065817,
   3600352804, 4094571909, 275423344, 430227734, 506948616,
   659060556, 883997877, 958139571, 1322822218, 1537002063,
   1747873779, 1955562222, 2024104815, 2227730452, 2361852424,
   2428436474, 2756734187, 3204031479, 3329325298]

/-- SHA-256 padding: append `0x80`, zeros up to 56 mod 64, then the
bit length as 8 big-endian bytes. -/
def sha256Pad (msg : List Nat) : List Nat :=
  let L := msg.length
  let k := (119 - L % 64) % 64
  let lenBits := 8 * L
  msg ++ 128 :: List.replicate k 0 ++
    (List.range 8).map (fun i => (lenBits >>> (8 * (7 - i))) % 256)

def chunks64Go : Nat → List Nat → List (List Nat)
  | 0, _ => []
  | _ + 1, [] => []
  | n + 1, l => l.take 64 :: chunks64Go n (l.drop 64)

def chunks64 (l : List Nat) : List (List Nat) := chunks64Go l.length l

/-- The 16 initial 32-bit big-endian words of a 64-byte chunk. -/
def chunkWords (chunk : List Nat) : List Nat :=
  (List.range 16).map fun i =>
    chunk.getD (4 * i) 0 * 16777216 + chunk.getD (4 * i + 1) 0 * 65536 +
    chunk.getD (4 * i + 2) 0 * 256 + chunk.getD (4 * i + 3) 0

def extendSchedule : Nat → List Nat → List Nat
  | 0, ws => ws
  | n + 1, ws =>
    let j := ws.length
    extendSchedule n (ws ++ [w32 (shaSmlS1 (ws.getD (j - 2) 0) + ws.getD (j - 7) 0 +
                                  shaSmlS0 (ws.getD (j - 15) 0) + ws.getD (j - 16) 0)])

abbrev ShaState := Nat × Nat × Nat × Nat × Nat × Nat × Nat × Nat

def shaRounds : List (Nat × Nat) → ShaState → ShaState
  | [], st => st
  | (k, w) :: rest, (a, b, c, d, e, f, g, h) =>
    let t1 := w32 (h + shaBigS1 e + shaChF e f g + k + w)
    let t2 := w32 (shaBigS0 a + shaMajF a b c)
    shaRounds rest (w32 (t1 + t2), a, b, c, w32 (d + t1), e, f, g)

def shaCompress (st : ShaState) (chunk : List Nat) : ShaState :=
  let ws := extendSchedule 48 (chunkWords chunk)
  match st, shaRounds (sha256K.zip ws) st with
  | (a, b, c, d, e, f, g, h), (a', b', c', d', e', f', g', h') =>
    (w32 (a + a'), w32 (b + b'), w32 (c + c'), w32 (d + d'),
     w32 (e + e'), w32 (f + f'), w32 (g + g'), w32 (h + h'))

def word32Bytes (x : Nat) : List Nat := [x >>> 24 % 256, x >>> 16 % 256, x >>> 8 % 256, x % 256]

/-- SHA-256 of a byte list (the model of `hashlib.sha256`). -/
def sha256 (msg : List Nat) : List Nat :=
  let init : ShaState := (1779033703, 3144134277, 1013904242, 2773480762,
                          1359893119, 2600822924, 528734635, 1541459225)
  match (chunks64 (sha256Pad msg)).foldl shaCompress init with
  | (a, b, c, d, e, f, g, h) =>
    word32Bytes a ++ word32Bytes b ++ word32Bytes c ++ word32Bytes d ++
    word32Bytes e ++ word32Bytes f ++ word32Bytes g ++ word32Bytes h

def hexDigit (n : Nat) : Char := if n < 10 then Char.ofNat (48 + n) else Char.ofNat (87 + n)

def bytesToHex (bs : List Nat) : String := ⟨bs.map (fun b => [hexDigit (b / 16), hexDigit (b % 16)]) |>.flatten⟩

/-- The bytes of an (ASCII) string, modelling Python's `.encode("utf-8")`
on the ASCII keys, values and secrets used here. -/
def strBytes (s : String) : List Nat := s.data.map Char.toNat

/-- HMAC-SHA256 over byte lists (the model of `hmac.new(..., hashlib.sha256)`). -/
def hmacSha256 (key msg : List Nat) : List Nat :=
  let k0 := if 64 < key.length then sha256 key else key
  let kp := k0 ++ List.replicate (64 - k0.length) 0
  sha256 ((kp.map (fun b => b ^^^ 92)) ++ sha256 ((kp.map (fun b => b ^^^ 54)) ++ msg))

/-- One `f"{k}={v}"` segment of the canonical query string. -/
def encPair (p : String × String) : List Char := p.1.data ++ '=' :: p.2.data

/-- Python `"&".join`, at the character level. -/
def joinAmp : List (List Char) → List Char
  | [] => []
  | [x] => x
  | x :: xs => x ++ '&' :: joinAmp xs

/-- Line 36 of `binance_rest.py`: the canonical string that gets signed —
the `k=v` pairs joined by `&` in insertion order. -/
def query_string (ps : List (String × String)) : String := ⟨joinAmp (ps.map encPair)⟩

/-- `BinanceRESTClient.create_signature`: hex HMAC-SHA256 of the canonical
query string, keyed by the account secret. -/
def create_signature (secret : String) (ps : List (String × String)) : String :=
  bytesToHex (hmacSha256 (strBytes secret) (strBytes (query_string ps)))

def cleanKey (s : String) : Bool := s.data.all (fun c => c != '&' && c != '=')

def cleanVal (s : String) : Bool := s.data.all (fun c => c != '&')

/-- The parameter maps actually signed by this client use keys such as
`symbol`, `side`, `quantity`, `timestamp` and plain values, none of which
contain the separator characters `&` and `=`. -/
def cleanParams (ps : List (String × String)) : Bool :=
  ps.all (fun p => cleanKey p.1 && cleanVal p.2)

/-! ## Order price/quantity formatting (`"{:.1f}"` / `"{:.2f}"`) -/

/-- Round a rational to the nearest integer, ties to even — the rounding
used by Python `"{:.Nf}".format` on the scaled value. -/
def roundHalfEven (q : ℚ) : ℤ :=
  let f := ⌊q⌋
  let r := q - (f : ℚ)
  if r < 1/2 then f
  else if 1/2 < r then f + 1
  else if f % 2 = 0 then f else f + 1

/-- The numeric value of `"{:.d f}".format(x)`: `x` rounded half-to-even
at `d` decimal places. -/
def pyFixed (d : Nat) (x : ℚ) : ℚ := (roundHalfEven (x * 10 ^ d) : ℚ) / 10 ^ d

/-- Line 152 of `binance_rest.py`: the quantity sent with a MARKET order
is `"{:.1f}".format(float(quantity))` — one fixed decimal place. -/
def market_order_sent_quantity (q : ℚ) : ℚ := pyFixed 1 q

/-- Line 226 of `binance_rest.py`: the `stopPrice` sent with a
TAKE_PROFIT_MARKET order is `"{:.2f}".format(take_profit_price)`. -/
def tp_order_sent_stop_price (p : ℚ) : ℚ := pyFixed 2 p

/-- Line 227 of `binance_rest.py`: the TP quantity is `"{:.1f}"`. -/
def tp_order_sent_quantity (q : ℚ) : ℚ := pyFixed 1 q

/-! ## Exchange actions, trackers, and the trailing-stop controller -/

/-- REST calls issued by the controller, in order of emission. -/
inductive RestAction
  | cancelOrder (symbol : String) (orderId : Nat)
  | placeStopLoss (symbol side : String) (quantity stopPrice : ℚ)
  | placeTakeProfit (symbol side : String) (quantity stopPrice : ℚ)
  | cancelAllOrders (symbol : String)
  | closePosition (symbol : String)
deriving DecidableEq, Repr

/-- `BinanceWebSocket.get_position_amt` (`binance_websocket.py` lines
242–260): `resp` is the positionRisk response, `none` on a transient
error (the `except` branch), in which case the sentinel `0.0` is
returned; otherwise the `positionAmt` of the first matching entry, or
`0.0` when the symbol is absent. -/
def get_position_amt (resp : Option (List (String × ℚ))) (symbol : String) : ℚ :=
  match resp with
  | none => 0
  | some positions =>
    match aget symbol positions with
    | none => 0
    | some amt => amt

/-- `BinanceWebSocket.update_trailing_stop` (`binance_websocket.py` lines
215–240).  `resp` feeds the inner `get_position_amt` call; `placeRes` is
the id returned by `place_stop_loss_order` (`none` models a falsy
result; that helper is absent from the sources and is modelled from the
spec as returning the new order id, or failing).  On a zero position
the call returns immediately; otherwise any tracked stop id is
cancelled *and deleted* before the new stop is placed, and the tracker
is set to the new id only when placement returns one. -/
def update_trailing_stop (resp : Option (List (String × ℚ))) (placeRes : Option Nat)
    (symbol : String) (current_price trailing_stop_percent quantity : ℚ)
    (sl_tracker : List (String × Nat)) : List (String × Nat) × List RestAction :=
  let position_amt := get_position_amt resp symbol
  if position_amt = 0 then (sl_tracker, [])
  else
    let is_long := 0 < position_amt
    let stop_price := if is_long then current_price * (1 - trailing_stop_percent / 100)
                      else current_price * (1 + trailing_stop_percent / 100)
    let sl_side := if is_long then "SELL" else "BUY"
    let cancelled :=
      match aget symbol sl_tracker with
      | some old_id => (aerase symbol sl_tracker, [RestAction.cancelOrder symbol old_id])
      | none => (sl_tracker, [])
    let acts := cancelled.2 ++ [RestAction.placeStopLoss symbol sl_side quantity stop_price]
    match placeRes with
    | some sl_id => (aset symbol sl_id cancelled.1, acts)
    | none => (cancelled.1, acts)

/-- `BinanceWebSocket.place_take_profit_order` (`binance_rest.py` lines
329–359, the older snapshot): submits a TAKE_PROFIT_MARKET order with
`"{:.2f}"`-formatted stop price and `"{:.1f}"`-formatted quantity, and
records the new order id in the TP tracker only on a 200 response
(`placeRes = some id`). -/
def ws_place_take_profit_order (placeRes : Option Nat) (symbol side : String)
    (quantity take_profit_price : ℚ) (tp_tracker : List (String × Nat)) :
    List (String × Nat) × List RestAction :=
  let acts := [RestAction.placeTakeProfit symbol side (pyFixed 1 quantity) (pyFixed 2 take_profit_price)]
  match placeRes with
  | some tp_order_id => (aset symbol tp_order_id tp_tracker, acts)
  | none => (tp_tracker, acts)

/-- `BinanceWebSocket.ensure_single_tp_order` (`binance_rest.py` lines
318–327): cancels any tracked TP order id, then places the new one.
The tracked id is *not* removed from the tracker when the old order is
cancelled. -/
def ensure_single_tp_order (placeRes : Option Nat) (symbol side : String)
    (quantity take_profit_price : ℚ) (tp_tracker : List (String × Nat)) :
    List (String × Nat) × List RestAction :=
  let cancelActs :=
    match aget symbol tp_tracker with
    | some tp_order_id => [RestAction.cancelOrder symbol tp_order_id]
    | none => []
  let placed := ws_place_take_profit_order placeRes symbol side quantity take_profit_price tp_tracker
  (placed.1, cancelActs ++ placed.2)

/-! ## The webhook EXIT handler (`app.process_exit_signal`) -/

/-- One entry of the `last_signal` dict (`app.py` line 36): the stored
payload fields consumed later, together with
`float(order_response.get("avgPrice", 0))` of the entry order. -/
structure StoredSignal where
  timestamp : ℚ
  quantity : ℚ
  take_profit : Option ℚ
  avgPrice : ℚ
deriving DecidableEq, Repr

/-- The shared per-symbol state of `app.py` and `binance_websocket.py`:
`last_signal` plus the `BinanceWebSocket` dictionaries. -/
structure SysState where
  last_signal : List (String × StoredSignal)
  trailing_stop_enabled : List (String × Bool)
  best_price : List (String × ℚ)
  sl_tracker : List (String × Nat)
  entry_price : List (String × ℚ)
  tp_target_price : List (String × ℚ)
  trailing_progress : List (String × ℚ)
deriving DecidableEq, Repr

/-- The exchange-side values consumed during one EXIT:
`lastPrice` is the `get_last_price` result (that helper is absent from
the sources; modelled from the spec as failing soft with sentinel `0`),
`positionRisk` feeds `get_position_amt`, and `placeSL` is the
`place_stop_loss_order` result. -/
structure ExchangeOracle where
  lastPrice : ℚ
  positionRisk : Option (List (String × ℚ))
  placeSL : Option Nat
deriving DecidableEq, Repr

inductive ExitOutcome
  | trailingEnabled (symbol : String)
  | closed (symbol : String)
deriving DecidableEq, Repr

/-- `app.process_exit_signal` (`app.py` lines 58–92).  Returns the state
after the call together with `some (actions, outcome)` on normal return,
or `none` when the handler raises — the `ws_client.best_price[symbol]`
read raises `KeyError` when no positive price was availabe to set it —
keeping (as Python does) the mutations made before the raise.
`cancel_all_orders` and `close_position` are absent from the sources and
are modelled from the spec as emitted calls that return a structured
result without raising. -/
def process_exit_signal (o : ExchangeOracle) (trailing_stop_percent : ℚ)
    (symbol : String) (current_ts : ℚ) (st : SysState) :
    SysState × Option (List RestAction × ExitOutcome) :=
  match aget symbol st.last_signal with
  | none => (st, some ([RestAction.closePosition symbol], ExitOutcome.closed symbol))
  | some stored =>
    if current_ts - stored.timestamp < 3 then
      let st1 := { st with trailing_stop_enabled := aset symbol true st.trailing_stop_enabled }
      let avg := if stored.avgPrice = 0 then o.lastPrice else stored.avgPrice
      let st2 := if 0 < avg then { st1 with best_price := aset symbol avg st1.best_price }
                 else st1
      if (aget symbol st2.sl_tracker).isNone then
        match aget symbol st2.best_price with
        | none => (st2, none)
        | some bp =>
          let upd := update_trailing_stop o.positionRisk o.placeSL symbol bp
                       trailing_stop_percent stored.quantity st2.sl_tracker
          ({ st2 with sl_tracker := upd.1, last_signal := aerase symbol st2.last_signal },
           some (upd.2, ExitOutcome.trailingEnabled symbol))
      else
        ({ st2 with last_signal := aerase symbol st2.last_signal },
         some ([], ExitOutcome.trailingEnabled symbol))
    else
      ({ st with last_signal := aerase symbol st.last_signal },
       some ([RestAction.cancelAllOrders symbol, RestAction.closePosition symbol],
             ExitOutcome.closed symbol))

/-! ## Account/position stream events -/

set_option linter.unusedVariables false in
/-- `BinanceWebSocket.handle_account_update` (`binance_websocket.py`
lines 115–116, the handler wired into the running app): the body only
logs the event — no per-symbol state is touched. -/
def handle_account_update (positions : List (String × ℚ)) (st : SysState) : SysState :=
  st

/-- `BinanceWebSocket.handle_account_update` (`binance_rest.py` lines
381–393, the older snapshot): for each reported position with size
exactly zero, the symbol's TP-tracker entry is removed, if present;
nothing else is cleared. -/
def handle_account_update_rest (positions : List (String × ℚ))
    (tp_tracker : List (String × Nat)) : List (String × Nat) :=
  match positions with
  | [] => tp_tracker
  | (symbol, pa) :: rest =>
    handle_account_update_rest rest
      (if pa = 0 ∧ (aget symbol tp_tracker).isSome then aerase symbol tp_tracker
       else tp_tracker)

/-! ## Order-trade-update stream events -/

/-- The fields of an ORDER_TRADE_UPDATE event consumed by the live
handler (`binance_websocket.py`): symbol `s`, status `X`, order type
`ot`, side `S`, average price `ap`, filled quantity `z`. -/
structure OrderEvent where
  s : String
  X : String
  ot : String
  S : String
  ap : ℚ
  z : ℚ
deriving DecidableEq, Repr

/-- `BinanceWebSocket.handle_order_trade_update` (`binance_websocket.py`
lines 118–162).  `default_tp_pct` models
`float(os.getenv("DEFAULT_TAKE_PROFIT_PERCENT", "0.5"))`; the
take-profit percent carried by the originating signal (stored in
`last_signal`) is never read.  `resp` feeds the inner
`get_position_amt` call.  On a filled MARKET order with a nonzero
position, the entry price and the take-profit target (from the default
percent, direction-dependent) are recorded and trailing progress is
reset; on a zero reading the entry and target are dropped.  Filled
STOP_MARKET / TAKE_PROFIT_MARKET orders are only logged. -/
def handle_order_trade_update (default_tp_pct : ℚ) (resp : Option (List (String × ℚ)))
    (ev : OrderEvent) (st : SysState) : SysState :=
  if ev.ot = "MARKET" ∧ ev.X = "FILLED" then
    let pos_amt := get_position_amt resp ev.s
    if 0 < pos_amt then
      { st with entry_price := aset ev.s ev.ap st.entry_price
                tp_target_price := aset ev.s (ev.ap * (1 + default_tp_pct / 100)) st.tp_target_price
                trailing_progress := aset ev.s 0 st.trailing_progress }
    else if pos_amt < 0 then
      { st with entry_price := aset ev.s ev.ap st.entry_price
                tp_target_price := aset ev.s (ev.ap * (1 - default_tp_pct / 100)) st.tp_target_price
                trailing_progress := aset ev.s 0 st.trailing_progress }
    else
      { st with entry_price := aerase ev.s st.entry_price
                tp_target_price := aerase ev.s st.tp_target_price }
  else st

/-- The fields of the event consumed by the older snapshot
(`binance_rest.py`), whose order-type field is `o`. -/
structure RestOrderEvent where
  s : String
  X : String
  o : String
  S : String
  ap : ℚ
  z : ℚ
deriving DecidableEq, Repr

/-- `BinanceWebSocket.handle_order_trade_update` (`binance_rest.py`
lines 361–379, older snapshot): on a FILLED MARKET order the
take-profit percent is the hard-coded `0.5` and the TP order is routed
through `ensure_single_tp_order`. -/
def handle_order_trade_update_rest (placeRes : Option Nat) (ev : RestOrderEvent)
    (tp_tracker : List (String × Nat)) : List (String × Nat) × List RestAction :=
  if ev.X = "FILLED" ∧ ev.o = "MARKET" then
    let take_profit_percent : ℚ := 1/2
    let tp_price := if ev.S = "BUY" then ev.ap * (1 + take_profit_percent / 100)
                    else ev.ap * (1 - take_profit_percent / 100)
    let tp_side := if ev.S = "BUY" then "SELL" else "BUY"
    ensure_single_tp_order placeRes ev.s tp_side ev.z tp_price tp_tracker
  else (tp_tracker, [])

/-! ## Reconnection supervisor (`BinanceWebSocket.reconnect` / `start`) -/

inductive WsEvent
  | opened
  | closed
  | errored
deriving DecidableEq, Repr

/-- One supervisor step (`binance_websocket.py` lines 51–60 and 78–83):
`on_open` only logs — the attempt counter is *not* touched — while
`on_close` and `on_error` call `reconnect`, which first increments
`reconnect_attempts` and then sleeps `min(2 ** attempts, 60)` seconds.
The step returns the new counter and the wait emitted, if any. -/
def superviseStep (attempts : Nat) : WsEvent → Nat × Option Nat
  | .opened => (attempts, none)
  | .closed => (attempts + 1, some (min (2 ^ (attempts + 1)) 60))
  | .errored => (attempts + 1, some (min (2 ^ (attempts + 1)) 60))

/-- Run the supervisor over a stream-lifecycle trace, collecting the
reconnect waits in order. -/
def runSupervisor (attempts : Nat) : List WsEvent → Nat × List Nat
  | [] => (attempts, [])
  | e :: es =>
    let step := superviseStep attempts e
    let rest := runSupervisor step.1 es
    (rest.1, step.2.toList ++ rest.2)

def failCount : List WsEvent → Nat
  | [] => 0
  | .opened :: es => failCount es
  | .closed :: es => failCount es + 1
  | .errored :: es => failCount es + 1

/-! ## Theorems -/

theorem aget_aset_self {α : Type} (k : String) (v : α) (l : List (String × α)) :
    aget k (aset k v l) = some v := by
  induction l with
  | nil => simp [aget, aset]
  | cons h t ih =>
    obtain ⟨k', v'⟩ := h
    by_cases hk : k' = k <;> simp [aget, aset, hk, ih]

theorem aget_aset_other {α : Type} (k k2 : String) (v : α) (l : List (String × α))
    (h : k ≠ k2) : aget k2 (aset k v l) = aget k2 l := by
  induction l with
  | nil => simp [aget, aset, h]
  | cons hd t ih =>
    obtain ⟨k', v'⟩ := hd
    by_cases hk : k' = k
    · subst hk
      simp [aget, aset, h]
    · simp [aget, aset, hk, ih]

theorem aget_aerase_self {α : Type} (k : String) (l : List (String × α)) :
    aget k (aerase k l) = none := by
  induction l with
  | nil => simp [aget, aerase]
  | cons hd t ih =>
    obtain ⟨k', v'⟩ := hd
    by_cases hk : k' = k <;> simp [aget, aerase, hk, ih]

theorem aget_aerase_other {α : Type} (k k2 : String) (l : List (String × α))
    (h : k ≠ k2) : aget k2 (aerase k l) = aget k2 l := by
  induction l with
  | nil => simp [aerase]
  | cons hd t ih =>
    obtain ⟨k', v'⟩ := hd
    by_cases hk : k' = k
    · subst hk
      simp [aget, aerase, h, ih]
    · simp [aget, aerase, hk, ih]

theorem toRat_sign (f : PyFloat) :
    (PyFloat.toRat f = 0 ↔ f.num = 0) ∧
    (PyFloat.toRat f < 0 ↔ f.num < 0) ∧
    (0 < PyFloat.toRat f ↔ 0 < f.num) := by
  have hb : (0 : ℚ) < 10 ^ f.scale := by positivity
  unfold PyFloat.toRat
  refine ⟨?_, ?_, ?_⟩
  · rw [div_eq_zero_iff]
    constructor
    · rintro (h | h)
      · exact_mod_cast h
      · exact absurd h (ne_of_gt hb)
    · intro h
      left
      exact_mod_cast h
  · rw [div_neg_iff]
    constructor
    · rintro (⟨_, h⟩ | ⟨h, _⟩)
      · exact absurd h (not_lt_of_gt hb)
      · exact_mod_cast h
    · intro h
      right
      exact ⟨by exact_mod_cast h, hb⟩
  · rw [div_pos_iff]
    constructor
    · rintro (⟨h, _⟩ | ⟨_, h⟩)
      · exact_mod_cast h
      · exact absurd h (not_lt_of_gt hb)
    · intro h
      left
      exact ⟨by exact_mod_cast h, hb⟩

/-- **C1.** For every alert accepted by the normalizer, the resulting
`trade_type` is `EXIT` iff the parsed "New strategy position" number is
zero, `SELL` iff it is negative and `BUY` iff it is positive — the
free-text action word is never consulted — and for `BUY`/`SELL` intents
the `side` equals the `trade_type`. -/
theorem trade_type_matches_position_sign
    (d : WebhookData) (p : Payload) (v : String) (f : PyFloat)
    (hv : d.value = some v)
    (hf : newPositionOf v = .ok f)
    (hp : parse_webhook_to_payload d = .ok p) :
    (p.trade_type = "EXIT" ↔ PyFloat.toRat f = 0) ∧
    (p.trade_type = "SELL" ↔ PyFloat.toRat f < 0) ∧
    (p.trade_type = "BUY" ↔ 0 < PyFloat.toRat f) ∧
    ((p.trade_type = "BUY" ∨ p.trade_type = "SELL") → p.side = p.trade_type) := by
  obtain ⟨dv, dti, dts⟩ := d
  simp only at hv
  subst hv
  obtain ⟨hz, hneg, hpos⟩ := toRat_sign f
  cases dti with
  | none => simp [parse_webhook_to_payload] at hp
  | some ti =>
    cases dts with
    | none => simp [parse_webhook_to_payload] at hp
    | some ts =>
      simp only [parse_webhook_to_payload] at hp
      by_cases hts : ts = ""
      · simp [hts] at hp
      · rw [if_neg hts, hf] at hp
        cases hticker : ti.ticker with
        | none => rw [hticker] at hp; simp at hp
        | some ticker =>
          cases hcontracts : ti.contracts with
          | none => rw [hticker, hcontracts] at hp; simp at hp
          | some contracts =>
            rw [hticker, hcontracts] at hp
            simp only [Except.ok.injEq] at hp
            subst hp
            rcases lt_trichotomy f.num 0 with h | h | h
            · have h0 : f.num ≠ 0 := by omega
              have h2 : ¬ (0:ℤ) < f.num := by omega
              simp only [tradeTypeSide, if_neg h0, if_pos h, hz, hneg, hpos]
              exact ⟨by simp [h0], by simp [h], by simp [h2], by simp⟩
            · simp only [tradeTypeSide, if_pos h, hz, hneg, hpos]
              exact ⟨by simp [h], by simp [h], by simp [h], by simp⟩
            · have h0 : f.num ≠ 0 := by omega
              have h1 : ¬ f.num < 0 := by omega
              simp only [tradeTypeSide, if_neg h0, if_neg h1, hz, hneg, hpos]
              exact ⟨by simp [h0], by simp [h1], by simp [h], by simp⟩

/-- Witness for C1 on the sample alert from the repository: the text
contains the action word "BUY" but the position delta is `-1`, and the
normalizer yields `trade_type = side = "SELL"`. -/
theorem trade_type_matches_position_sign_witness :
    let d : WebhookData :=
      { value := some "Order BUY @ 24.379 filled on LINKUSDT. New strategy position is -1."
        trade_info := some { ticker := some "LINKUSDT", contracts := some "1",
                             leverage := some "10", take_profit := some "0.5" }
        timestamp := some "1681253674.000" }
    let p : Payload :=
      { symbol := "LINKUSDT", side := "SELL", quantity := "1", leverage := "10",
        take_profit := some "0.5", trade_type := "SELL", timestamp := "1681253674.000" }
    parse_webhook_to_payload d = .ok p ∧
    ((p.trade_type = "EXIT" ↔ PyFloat.toRat ⟨-1, 0⟩ = 0) ∧
     (p.trade_type = "SELL" ↔ PyFloat.toRat ⟨-1, 0⟩ < 0) ∧
     (p.trade_type = "BUY" ↔ 0 < PyFloat.toRat ⟨-1, 0⟩) ∧
     ((p.trade_type = "BUY" ∨ p.trade_type = "SELL") → p.side = p.trade_type)) := by
  intro dw p
  exact ⟨by decide, trade_type_matches_position_sign dw p
    "Order BUY @ 24.379 filled on LINKUSDT. New strategy position is -1." ⟨-1, 0⟩
    (by decide) (by decide) (by decide)⟩

/-- **C6 counterexample.** The claim says the normalizer errors exactly
when the position number is absent or non-numeric, or the timestamp is
absent or non-numeric, or ticker/contracts is missing.  But an alert
whose text lacks the "New strategy position is" marker is *accepted*
(the position defaults to `0.0`, an EXIT intent), and a non-numeric
timestamp string is also accepted — the timestamp is only checked for
truthiness. -/
theorem parse_accepts_missing_position_and_bad_timestamp :
    parse_webhook_to_payload
      { value := some "hello"
        trade_info := some { ticker := some "LINKUSDT", contracts := some "1",
                             leverage := none, take_profit := none }
        timestamp := some "123" } =
      .ok { symbol := "LINKUSDT", side := "BUY", quantity := "1", leverage := "1",
            take_profit := none, trade_type := "EXIT", timestamp := "123" } ∧
    parse_webhook_to_payload
      { value := some "New strategy position is 2"
        trade_info := some { ticker := some "BTCUSDT", contracts := some "3",
                             leverage := none, take_profit := none }
        timestamp := some "not-a-number" } =
      .ok { symbol := "BTCUSDT", side := "BUY", quantity := "3", leverage := "1",
            take_profit := none, trade_type := "BUY", timestamp := "not-a-number" } := by
  constructor <;> decide

/-- **C6 amended.** The normalizer raises exactly when the `value` or
`trade_info` key is missing, the timestamp is missing or empty, the
marker is present but the text after it is non-numeric, or
`ticker`/`contracts` is missing from `trade_info`.  An absent position
number is not an error (it defaults to `0`, an EXIT intent), and the
timestamp text is never validated numerically. -/
theorem parse_error_characterization (d : WebhookData) :
    parseFails d = malformedAlert d := by
  obtain ⟨dv, dti, dts⟩ := d
  cases dv with
  | none => rfl
  | some v =>
    cases dti with
    | none => rfl
    | some ti =>
      cases dts with
      | none => rfl
      | some ts =>
        simp only [parseFails, parse_webhook_to_payload, malformedAlert]
        by_cases hts : ts = ""
        · simp [hts]
        · rw [if_neg hts]
          simp only [newPositionOf]
          cases afterLast markerStr.data v.data with
          | none =>
            simp only [Option.isNone]
            cases hticker : ti.ticker with
            | none => simp [hticker, String.ne_of_lt, hts]
            | some ticker =>
              cases hcontracts : ti.contracts with
              | none => simp [hts, hcontracts]
              | some contracts => simp [hts, hcontracts]
          | some r =>
            cases hpf : parseFloat (rstripDots (trimChars r)) with
            | none => simp [hts, hpf]
            | some f =>
              cases hticker : ti.ticker with
              | none => simp [hts, hpf, hticker]
              | some ticker =>
                cases hcontracts : ti.contracts with
                | none => simp [hts, hpf, hticker, hcontracts]
                | some contracts => simp [hts, hpf, hticker, hcontracts]

theorem sep_split (sep : Char) :
    ∀ (a1 a2 r1 r2 : List Char), sep ∉ a1 → sep ∉ a2 →
      a1 ++ sep :: r1 = a2 ++ sep :: r2 → a1 = a2 ∧ r1 = r2 := by
  intro a1
  induction a1 with
  | nil =>
    intro a2 r1 r2 _ h2 he
    cases a2 with
    | nil => simpa using he
    | cons c t =>
      simp only [List.nil_append, List.cons_append, List.cons.injEq] at he
      exact absurd (he.1 ▸ List.mem_cons_self c t) h2
  | cons c t ih =>
    intro a2 r1 r2 h1 h2 he
    cases a2 with
    | nil =>
      simp only [List.cons_append, List.nil_append, List.cons.injEq] at he
      exact absurd (he.1 ▸ List.mem_cons_self c t) h1
    | cons c2 t2 =>
      simp only [List.cons_append, List.cons.injEq] at he
      obtain ⟨hc, ht⟩ := he
      have h1' : sep ∉ t := fun hm => h1 (List.mem_cons_of_mem c hm)
      have h2' : sep ∉ t2 := fun hm => h2 (List.mem_cons_of_mem c2 hm)
      obtain ⟨hteq, hreq⟩ := ih t2 r1 r2 h1' h2' ht
      exact ⟨by rw [hc, hteq], hreq⟩

theorem cleanKey_not_mem {s : String} (h : cleanKey s = true) :
    '&' ∉ s.data ∧ '=' ∉ s.data := by
  simp only [cleanKey, List.all_eq_true, Bool.and_eq_true, bne_iff_ne] at h
  exact ⟨fun hm => (h _ hm).1 rfl, fun hm => (h _ hm).2 rfl⟩

theorem cleanVal_not_mem {s : String} (h : cleanVal s = true) : '&' ∉ s.data := by
  simp only [cleanVal, List.all_eq_true, bne_iff_ne] at h
  exact fun hm => (h _ hm) rfl

theorem encPair_no_amp {p : String × String} (hk : cleanKey p.1 = true)
    (hv : cleanVal p.2 = true) : '&' ∉ encPair p := by
  simp only [encPair, List.mem_append, List.mem_cons]
  rintro (hm | hm | hm)
  · exact (cleanKey_not_mem hk).1 hm
  · exact absurd hm (by decide)
  · exact cleanVal_not_mem hv hm

theorem encPair_inj {p q : String × String} (hp : cleanKey p.1 = true)
    (hq : cleanKey q.1 = true) (he : encPair p = encPair q) : p = q := by
  obtain ⟨k1, v1⟩ := p
  obtain ⟨k2, v2⟩ := q
  simp only [encPair] at he
  obtain ⟨hk, hv⟩ :=
    sep_split '=' k1.data k2.data v1.data v2.data
      (cleanKey_not_mem hp).2 (cleanKey_not_mem hq).2 he
  have hk' : k1 = k2 := by
    cases k1
    cases k2
    exact congrArg String.mk (by simpa using hk)
  have hv' : v1 = v2 := by
    cases v1
    cases v2
    exact congrArg String.mk (by simpa using hv)
  rw [hk', hv']

theorem encPair_ne_nil (p : String × String) : encPair p ≠ [] := by
  obtain ⟨k, v⟩ := p
  simp [encPair]

theorem joinAmp_clean_inj :
    ∀ ps qs : List (String × String), cleanParams ps = true → cleanParams qs = true →
      joinAmp (ps.map encPair) = joinAmp (qs.map encPair) → ps = qs := by
  intro ps
  induction ps with
  | nil =>
    intro qs _ _ he
    cases qs with
    | nil => rfl
    | cons q t =>
      exfalso
      cases t with
      | nil => exact encPair_ne_nil q (by simpa [joinAmp] using he.symm)
      | cons q2 t2 =>
        simp only [List.map, joinAmp] at he
        exact encPair_ne_nil q (List.append_eq_nil.mp he.symm).1
  | cons p t ih =>
    intro qs hc1 hc2 he
    simp only [cleanParams, List.all_cons, Bool.and_eq_true] at hc1
    cases qs with
    | nil =>
      exfalso
      cases t with
      | nil => exact encPair_ne_nil p (by simpa [joinAmp] using he)
      | cons p2 t2 =>
        simp only [List.map, joinAmp] at he
        exact encPair_ne_nil p (List.append_eq_nil.mp he).1
    | cons q u =>
      simp only [cleanParams, List.all_cons, Bool.and_eq_true] at hc2
      cases t with
      | nil =>
        cases u with
        | nil =>
          simp only [List.map, joinAmp] at he
          rw [encPair_inj hc1.1.1 hc2.1.1 he]
        | cons q2 u2 =>
          exfalso
          simp only [List.map, joinAmp] at he
          have hmem : '&' ∈ encPair p := by
            rw [he]
            simp
          exact encPair_no_amp hc1.1.1 hc1.1.2 hmem
      | cons p2 t2 =>
        cases u with
        | nil =>
          exfalso
          simp only [List.map, joinAmp] at he
          have hmem : '&' ∈ encPair q := by
            rw [← he]
            simp
          exact encPair_no_amp hc2.1.1 hc2.1.2 hmem
        | cons q2 u2 =>
          simp only [List.map, joinAmp] at he
          obtain ⟨hhd, htl⟩ :=
            sep_split '&' (encPair p) (encPair q) _ _
              (encPair_no_amp hc1.1.1 hc1.1.2) (encPair_no_amp hc2.1.1 hc2.1.2) he
          have : (p2 :: t2) = (q2 :: u2) := by
            refine ih (q2 :: u2) ?_ ?_ htl
            · simpa [cleanParams] using hc1.2
            · simpa [cleanParams] using hc2.2
          rw [encPair_inj hc1.1.1 hc2.1.1 hhd, this]

theorem joinAmp_cons_ne (x : List Char) (xs : List (List Char)) (h : xs ≠ []) :
    joinAmp (x :: xs) = x ++ '&' :: joinAmp xs := by
  cases xs with
  | nil => exact absurd rfl h
  | cons y t => rfl

theorem joinAmp_value_change :
    ∀ (pre post : List (String × String)) (k v1 v2 : String), v1 ≠ v2 →
      joinAmp ((pre ++ (k, v1) :: post).map encPair) ≠
        joinAmp ((pre ++ (k, v2) :: post).map encPair) := by
  intro pre
  induction pre with
  | nil =>
    intro post k v1 v2 hne he
    cases post with
    | nil =>
      simp only [List.nil_append, List.map, joinAmp, encPair] at he
      have := List.append_cancel_left he
      simp only [List.cons.injEq, true_and] at this
      apply hne
      cases v1
      cases v2
      exact congrArg String.mk (by simpa using this)
    | cons x t =>
      simp only [List.nil_append, List.map, joinAmp, encPair, List.append_assoc,
        List.cons_append] at he
      have h1 := List.append_cancel_left he
      simp only [List.cons.injEq, true_and] at h1
      have h2 := List.append_cancel_right h1
      apply hne
      cases v1
      cases v2
      exact congrArg String.mk (by simpa using h2)
  | cons hd pre' ih =>
    intro post k v1 v2 hne he
    have hn1 : (pre' ++ (k, v1) :: post).map encPair ≠ [] := by simp
    have hn2 : (pre' ++ (k, v2) :: post).map encPair ≠ [] := by simp
    rw [List.cons_append, List.cons_append, List.map, List.map,
      joinAmp_cons_ne _ _ hn1, joinAmp_cons_ne _ _ hn2] at he
    have h1 := List.append_cancel_left he
    simp only [List.cons.injEq, true_and] at h1
    exact ih post k v1 v2 hne h1

/-- **C7.** `create_signature` is a pure deterministic function of the
ordered parameter map and the secret; the canonical string it signs is
the `k=v` pairs joined by `&` in insertion order; changing any single
parameter value changes that signed string, and for the
separator-free keys and values this client uses, any change to the
ordered parameter list at all (including reordering distinct entries)
changes the signed string. -/
theorem create_signature_canonical :
    (∀ secret ps, create_signature secret ps =
        bytesToHex (hmacSha256 (strBytes secret) (strBytes (query_string ps)))) ∧
    (∀ s1 s2 ps1 ps2, s1 = s2 → ps1 = ps2 →
        create_signature s1 ps1 = create_signature s2 ps2) ∧
    (∀ pre post k v1 v2, v1 ≠ v2 →
        query_string (pre ++ (k, v1) :: post) ≠ query_string (pre ++ (k, v2) :: post)) ∧
    (∀ ps qs, cleanParams ps = true → cleanParams qs = true → ps ≠ qs →
        query_string ps ≠ query_string qs) := by
  refine ⟨fun _ _ => rfl, ?_, ?_, ?_⟩
  · rintro s1 s2 ps1 ps2 rfl rfl
    rfl
  · intro pre post k v1 v2 hne heq
    exact joinAmp_value_change pre post k v1 v2 hne (congrArg String.data heq)
  · intro ps qs h1 h2 hne heq
    exact hne (joinAmp_clean_inj ps qs h1 h2 (congrArg String.data heq))

/-- Witness for C7: changing the value of `quantity` changes the signed
canonical string, and reordering two distinct clean parameters changes
it as well. -/
theorem create_signature_canonical_witness :
    (("0.1" : String) ≠ "0.2" ∧
      query_string [("symbol", "LINKUSDT"), ("quantity", "0.1")] ≠
        query_string [("symbol", "LINKUSDT"), ("quantity", "0.2")]) ∧
    (query_string [("symbol", "LINKUSDT"), ("side", "BUY")] ≠
        query_string [("side", "BUY"), ("symbol", "LINKUSDT")]) :=
  ⟨⟨by decide,
    create_signature_canonical.2.2.1 [("symbol", "LINKUSDT")] [] "quantity" "0.1" "0.2"
      (by decide)⟩,
   create_signature_canonical.2.2.2 [("symbol", "LINKUSDT"), ("side", "BUY")]
      [("side", "BUY"), ("symbol", "LINKUSDT")] (by decide) (by decide) (by decide)⟩

theorem roundHalfEven_abs_le (q : ℚ) : |(roundHalfEven q : ℚ) - q| ≤ 1/2 := by
  have hle : (⌊q⌋ : ℚ) ≤ q := Int.floor_le q
  have hlt : q - (⌊q⌋ : ℚ) < 1 := by
    have := Int.lt_floor_add_one q
    linarith
  unfold roundHalfEven
  by_cases h1 : q - (⌊q⌋ : ℚ) < 1/2
  · rw [if_pos h1, abs_sub_comm, abs_of_nonneg (by linarith)]
    linarith
  · rw [if_neg h1]
    by_cases h2 : 1/2 < q - (⌊q⌋ : ℚ)
    · rw [if_pos h2]
      push_cast
      rw [abs_of_nonneg (by linarith)]
      linarith
    · rw [if_neg h2]
      have hr : q - (⌊q⌋ : ℚ) = 1/2 := le_antisymm (not_lt.mp h2) (not_lt.mp h1)
      by_cases h3 : ⌊q⌋ % 2 = 0
      · rw [if_pos h3, abs_sub_comm, abs_of_nonneg (by linarith)]
        linarith
      · rw [if_neg h3]
        push_cast
        rw [abs_of_nonneg (by linarith)]
        linarith

theorem pyFixed_abs_le (d : Nat) (x : ℚ) : |pyFixed d x - x| ≤ 1 / (2 * 10 ^ d) := by
  have hp : (0:ℚ) < 10 ^ d := by positivity
  have h := roundHalfEven_abs_le (x * 10 ^ d)
  have hx : pyFixed d x - x = ((roundHalfEven (x * 10 ^ d) : ℚ) - x * 10 ^ d) / 10 ^ d := by
    field_simp [pyFixed]
    ring
  rw [hx, abs_div, abs_of_pos hp, div_le_div_iff₀ hp (by positivity : (0:ℚ) < 2 * 10 ^ d)]
  calc |(roundHalfEven (x * 10 ^ d) : ℚ) - x * 10 ^ d| * (2 * 10 ^ d)
      ≤ (1/2) * (2 * 10 ^ d) := by
        apply mul_le_mul_of_nonneg_right h
        positivity
    _ = 1 * 10 ^ d := by ring

/-- **C5 counterexample.** The claim says prices are rounded *down* to the
symbol's tick size (floor policy: 24.3789 with tick 0.01 → 24.37, never
exceeding the raw value).  The code actually formats with
`"{:.2f}"`, which rounds half-to-even: 24.3789 is sent as 24.38 — above
the raw value and not the claimed 24.37.  (No per-symbol precision is
consulted at all; the decimal counts are hard-coded.) -/
theorem tp_price_formatting_counterexample :
    tp_order_sent_stop_price (243789/10000) = 2438/100 ∧
    (243789/10000 : ℚ) < tp_order_sent_stop_price (243789/10000) ∧
    tp_order_sent_stop_price (243789/10000) ≠ 2437/100 := by
  have hfl : ⌊((243789:ℚ)/10000 * 10 ^ 2)⌋ = 2437 := by
    rw [Int.floor_eq_iff]
    constructor <;> norm_num
  have key : tp_order_sent_stop_price (243789/10000) = 2438/100 := by
    unfold tp_order_sent_stop_price pyFixed roundHalfEven
    rw [hfl]
    norm_num
  refine ⟨key, by rw [key]; norm_num, by rw [key]; norm_num⟩

/-- **C5 amended.** Order quantities are formatted at one fixed decimal
place and protective-order prices at two, with round-half-to-even (not
floor, and not the symbol's tick/step size): 0.1234 → 0.1 as the claim
says, but 24.3789 → 24.38, which exceeds the raw value; the sent value
is always within half a grid step of the raw value. -/
theorem order_formatting_fixed_decimals :
    market_order_sent_quantity (1234/10000) = 1/10 ∧
    tp_order_sent_stop_price (243789/10000) = 2438/100 ∧
    (∀ q, market_order_sent_quantity q = pyFixed 1 q) ∧
    (∀ q, tp_order_sent_quantity q = pyFixed 1 q) ∧
    (∀ p, tp_order_sent_stop_price p = pyFixed 2 p) ∧
    (∀ d x, |pyFixed d x - x| ≤ 1 / (2 * 10 ^ d)) := by
  refine ⟨?_, ?_, fun _ => rfl, fun _ => rfl, fun _ => rfl, pyFixed_abs_le⟩
  · have hfl : ⌊((1234:ℚ)/10000 * 10 ^ 1)⌋ = 1 := by
      rw [Int.floor_eq_iff]
      constructor <;> norm_num
    unfold market_order_sent_quantity pyFixed roundHalfEven
    rw [hfl]
    norm_num
  · have hfl : ⌊((243789:ℚ)/10000 * 10 ^ 2)⌋ = 2437 := by
      rw [Int.floor_eq_iff]
      constructor <;> norm_num
    unfold tp_order_sent_stop_price pyFixed roundHalfEven
    rw [hfl]
    norm_num

/-- **C2 counterexample.** The claim says every replacement removes the
previously tracked id before placing, so a successful cancel followed
by a failed placement leaves no tracked id.  In the take-profit path
this fails: `ensure_single_tp_order` cancels tracked order 55 but never
deletes the tracker entry, so after a failed placement the tracker
still points at the cancelled id 55. -/
theorem ensure_single_tp_retains_cancelled_id :
    aget "BTCUSDT" (ensure_single_tp_order none "BTCUSDT" "SELL" 1 100 [("BTCUSDT", 55)]).1 =
      some 55 ∧
    RestAction.cancelOrder "BTCUSDT" 55 ∈
      (ensure_single_tp_order none "BTCUSDT" "SELL" 1 100 [("BTCUSDT", 55)]).2 := by
  constructor
  · rfl
  · simp [ensure_single_tp_order, ws_place_take_profit_order, aget]

/-- **C2 amended.** Each tracker maps a symbol to at most one order id,
and in both replacement paths the cancel of the old id precedes the new
placement, with the tracker set to the new id only on confirmed
placement.  The stop-loss path deletes the tracked id before placing,
so cancel-then-failed-place leaves no tracked id; the take-profit path
does not delete the entry, so cancel-then-failed-place leaves the
tracker pointing at the cancelled id. -/
theorem protective_order_replacement (resp : Option (List (String × ℚ)))
    (placeRes : Option Nat) (symbol side : String) (cp tsp qty tpPrice : ℚ)
    (sl_tracker tp_tracker : List (String × Nat)) (old : Nat)
    (hold : aget symbol sl_tracker = some old)
    (hpos : get_position_amt resp symbol ≠ 0) :
    (update_trailing_stop resp placeRes symbol cp tsp qty sl_tracker).2 =
      [RestAction.cancelOrder symbol old,
       RestAction.placeStopLoss symbol
         (if 0 < get_position_amt resp symbol then "SELL" else "BUY") qty
         (if 0 < get_position_amt resp symbol then cp * (1 - tsp / 100)
          else cp * (1 + tsp / 100))] ∧
    (placeRes = none →
      aget symbol (update_trailing_stop resp placeRes symbol cp tsp qty sl_tracker).1 = none) ∧
    (∀ newId, placeRes = some newId →
      aget symbol (update_trailing_stop resp placeRes symbol cp tsp qty sl_tracker).1 =
        some newId) ∧
    (placeRes = none →
      (ensure_single_tp_order placeRes symbol side qty tpPrice tp_tracker).1 = tp_tracker) ∧
    (∀ newId, placeRes = some newId →
      aget symbol (ensure_single_tp_order placeRes symbol side qty tpPrice tp_tracker).1 =
        some newId) := by
  refine ⟨?_, ?_, ?_, ?_, ?_⟩
  · simp only [update_trailing_stop, if_neg hpos, hold]
    cases placeRes <;> simp
  · intro hnone
    simp only [update_trailing_stop, if_neg hpos, hold, hnone]
    exact aget_aerase_self symbol sl_tracker
  · intro newId hsome
    simp only [update_trailing_stop, if_neg hpos, hold, hsome]
    exact aget_aset_self symbol newId _
  · intro hnone
    simp only [ensure_single_tp_order, ws_place_take_profit_order, hnone]
  · intro newId hsome
    simp only [ensure_single_tp_order, ws_place_take_profit_order, hsome]
    exact aget_aset_self symbol newId _

/-- Witness for the amended C2 on a concrete replacement: symbol tracked
with stop id 55, position long 5, placement fails. -/
theorem protective_order_replacement_witness :
    (update_trailing_stop (some [("LINKUSDT", 5)]) none "LINKUSDT" 10 2 1
        [("LINKUSDT", 55)]).2 =
      [RestAction.cancelOrder "LINKUSDT" 55,
       RestAction.placeStopLoss "LINKUSDT"
         (if 0 < get_position_amt (some [("LINKUSDT", 5)]) "LINKUSDT" then "SELL" else "BUY") 1
         (if 0 < get_position_amt (some [("LINKUSDT", 5)]) "LINKUSDT" then 10 * (1 - 2 / 100)
          else 10 * (1 + 2 / 100))] ∧
    ((none : Option Nat) = none →
      aget "LINKUSDT" (update_trailing_stop (some [("LINKUSDT", 5)]) none "LINKUSDT" 10 2 1
        [("LINKUSDT", 55)]).1 = none) ∧
    (∀ newId, (none : Option Nat) = some newId →
      aget "LINKUSDT" (update_trailing_stop (some [("LINKUSDT", 5)]) none "LINKUSDT" 10 2 1
        [("LINKUSDT", 55)]).1 = some newId) ∧
    ((none : Option Nat) = none →
      (ensure_single_tp_order none "LINKUSDT" "SELL" 1 100 [("LINKUSDT", 77)]).1 =
        [("LINKUSDT", 77)]) ∧
    (∀ newId, (none : Option Nat) = some newId →
      aget "LINKUSDT" (ensure_single_tp_order none "LINKUSDT" "SELL" 1 100
        [("LINKUSDT", 77)]).1 = some newId) :=
  protective_order_replacement (some [("LINKUSDT", 5)]) none "LINKUSDT" "SELL" 10 2 1 100
    [("LINKUSDT", 55)] [("LINKUSDT", 77)] 55 (by decide) (by decide)

/-- **C8.** The position query fails soft: a transient error yields the
sentinel `0`, and the trailing-stop update path treats any zero reading
as "no information" — it places no order, chooses no side, and leaves
the tracker untouched — rather than acting on it as a flat position. -/
theorem position_query_fail_soft :
    (∀ symbol, get_position_amt none symbol = 0) ∧
    (∀ resp placeRes symbol cp tsp qty tr,
        get_position_amt resp symbol = 0 →
        update_trailing_stop resp placeRes symbol cp tsp qty tr = (tr, [])) := by
  constructor
  · intro _
    rfl
  · intro resp placeRes symbol cp tsp qty tr h
    simp only [update_trailing_stop, if_pos h]

/-- Witness for C8: a transient error (`resp = none`) reads as `0`, and
the trailing-stop update on that reading does nothing. -/
theorem position_query_fail_soft_witness :
    get_position_amt none "LINKUSDT" = 0 ∧
    update_trailing_stop none (some 7) "LINKUSDT" 10 2 1 [] = ([], []) :=
  ⟨position_query_fail_soft.1 "LINKUSDT",
   position_query_fail_soft.2 none (some 7) "LINKUSDT" 10 2 1 [] (by decide)⟩

theorem closePosition_not_in_update_trailing_stop (resp : Option (List (String × ℚ)))
    (placeRes : Option Nat) (symbol s2 : String) (cp tsp qty : ℚ)
    (tr : List (String × Nat)) :
    RestAction.closePosition s2 ∉ (update_trailing_stop resp placeRes symbol cp tsp qty tr).2 := by
  simp only [update_trailing_stop]
  by_cases h : get_position_amt resp symbol = 0
  · simp [h]
  · rw [if_neg h]
    cases hget : aget symbol tr <;> cases placeRes <;> simp [hget]

/-- **C3 counterexample.** The claim says an instant EXIT (within the
3-second window) enables trailing and removes the stored record.  But
when the stored order response has `avgPrice = 0`, `get_last_price`
fails soft to `0` (spec-modelled sentinel), and no best price or stop
is tracked, the handler crashes on the `ws_client.best_price[symbol]`
`KeyError` — the trailing flag has been set but the stored record is
*not* removed. -/
theorem instant_exit_crash_keeps_record :
    (process_exit_signal ⟨0, some [], none⟩ (2/10) "LINKUSDT" 101
        ⟨[("LINKUSDT", ⟨100, 1, none, 0⟩)], [], [], [], [], [], []⟩).2 = none ∧
    aget "LINKUSDT"
        (process_exit_signal ⟨0, some [], none⟩ (2/10) "LINKUSDT" 101
          ⟨[("LINKUSDT", ⟨100, 1, none, 0⟩)], [], [], [], [], [], []⟩).1.last_signal =
      some ⟨100, 1, none, 0⟩ ∧
    aget "LINKUSDT"
        (process_exit_signal ⟨0, some [], none⟩ (2/10) "LINKUSDT" 101
          ⟨[("LINKUSDT", ⟨100, 1, none, 0⟩)], [], [], [], [], [], []⟩).1.trailing_stop_enabled =
      some true := by
  have hd : (101 : ℚ) - 100 < 3 := by norm_num
  refine ⟨?_, ?_, ?_⟩ <;>
    simp [process_exit_signal, aget, aset, hd]

/-- **C3 amended.** With a stored entry signal, an EXIT within the
3-second window enables trailing, does not close the position and
removes the stored record *provided a positive reference price is
available* (a nonzero stored `avgPrice`, a positive last price, an
already-recorded best price, or an already-tracked stop — otherwise the
handler raises `KeyError` and the record survives, as the
counterexample shows); an EXIT at or beyond the window always cancels
all orders, closes the position and removes the record. -/
theorem exit_dedup (o : ExchangeOracle) (tsp : ℚ) (symbol : String) (current_ts : ℚ)
    (st : SysState) (stored : StoredSignal)
    (hs : aget symbol st.last_signal = some stored) :
    (current_ts - stored.timestamp < 3 →
      (0 < (if stored.avgPrice = 0 then o.lastPrice else stored.avgPrice) ∨
        (aget symbol st.best_price).isSome ∨ (aget symbol st.sl_tracker).isSome) →
      ∃ acts,
        (process_exit_signal o tsp symbol current_ts st).2 =
          some (acts, ExitOutcome.trailingEnabled symbol) ∧
        RestAction.closePosition symbol ∉ acts ∧
        aget symbol (process_exit_signal o tsp symbol current_ts st).1.trailing_stop_enabled =
          some true ∧
        aget symbol (process_exit_signal o tsp symbol current_ts st).1.last_signal = none) ∧
    (3 ≤ current_ts - stored.timestamp →
      (process_exit_signal o tsp symbol current_ts st).2 =
        some ([RestAction.cancelAllOrders symbol, RestAction.closePosition symbol],
              ExitOutcome.closed symbol) ∧
      aget symbol (process_exit_signal o tsp symbol current_ts st).1.last_signal = none) := by
  constructor
  · intro hd hav
    simp only [process_exit_signal, hs, if_pos hd]
    by_cases hpos : 0 < (if stored.avgPrice = 0 then o.lastPrice else stored.avgPrice)
    · rw [if_pos hpos]
      by_cases hsl : (aget symbol st.sl_tracker).isNone
      · rw [if_pos hsl, aget_aset_self]
        exact ⟨_, rfl, closePosition_not_in_update_trailing_stop _ _ _ _ _ _ _ _,
          aget_aset_self _ _ _, aget_aerase_self _ _⟩
      · rw [if_neg hsl]
        exact ⟨[], rfl, by simp, aget_aset_self _ _ _, aget_aerase_self _ _⟩
    · rw [if_neg hpos]
      rcases hav with hav | hav | hav
      · exact absurd hav hpos
      · by_cases hsl : (aget symbol st.sl_tracker).isNone
        · rw [if_pos hsl]
          obtain ⟨bp, hbp⟩ := Option.isSome_iff_exists.mp hav
          rw [hbp]
          exact ⟨_, rfl, closePosition_not_in_update_trailing_stop _ _ _ _ _ _ _ _,
            aget_aset_self _ _ _, aget_aerase_self _ _⟩
        · rw [if_neg hsl]
          exact ⟨[], rfl, by simp, aget_aset_self _ _ _, aget_aerase_self _ _⟩
      · have hnn : ¬ (aget symbol st.sl_tracker).isNone = true := by
          rw [Option.isNone_iff_eq_none]
          exact Option.isSome_iff_ne_none.mp hav
        rw [if_neg hnn]
        exact ⟨[], rfl, by simp, aget_aset_self _ _ _, aget_aerase_self _ _⟩
  · intro h3
    simp only [process_exit_signal, hs, if_neg (not_lt.mpr h3)]
    exact ⟨trivial, aget_aerase_self _ _⟩

/-- Witness for the amended C3 on a concrete stored BUY signal at t₀=100
with EXIT at t₁=101. -/
theorem exit_dedup_witness :
    let o : ExchangeOracle := ⟨0, none, none⟩
    let st : SysState := ⟨[("LINKUSDT", ⟨100, 1, none, 5⟩)], [], [], [], [], [], []⟩
    let stored : StoredSignal := ⟨100, 1, none, 5⟩
    ((101:ℚ) - stored.timestamp < 3 →
      (0 < (if stored.avgPrice = 0 then o.lastPrice else stored.avgPrice) ∨
        (aget "LINKUSDT" st.best_price).isSome ∨ (aget "LINKUSDT" st.sl_tracker).isSome) →
      ∃ acts,
        (process_exit_signal o (2/10) "LINKUSDT" 101 st).2 =
          some (acts, ExitOutcome.trailingEnabled "LINKUSDT") ∧
        RestAction.closePosition "LINKUSDT" ∉ acts ∧
        aget "LINKUSDT" (process_exit_signal o (2/10) "LINKUSDT" 101 st).1.trailing_stop_enabled =
          some true ∧
        aget "LINKUSDT" (process_exit_signal o (2/10) "LINKUSDT" 101 st).1.last_signal = none) ∧
    (3 ≤ (101:ℚ) - stored.timestamp →
      (process_exit_signal o (2/10) "LINKUSDT" 101 st).2 =
        some ([RestAction.cancelAllOrders "LINKUSDT", RestAction.closePosition "LINKUSDT"],
              ExitOutcome.closed "LINKUSDT") ∧
      aget "LINKUSDT" (process_exit_signal o (2/10) "LINKUSDT" 101 st).1.last_signal = none) := by
  intro o st stored
  exact exit_dedup o (2/10) "LINKUSDT" 101 st stored (by decide)

/-- **C4 counterexample.** The claim says a zero-position event clears
the symbol's position state and protective-order tracker entries within
that event-processing step.  The live handler does nothing: after an
event reporting `BTCUSDT` flat, the stop tracker still holds id 7 and
the entry price survives. -/
theorem account_update_clears_nothing :
    handle_account_update [("BTCUSDT", 0)]
        ⟨[], [("BTCUSDT", true)], [("BTCUSDT", 101)], [("BTCUSDT", 7)],
         [("BTCUSDT", 100)], [("BTCUSDT", 102)], [("BTCUSDT", 0)]⟩ =
      ⟨[], [("BTCUSDT", true)], [("BTCUSDT", 101)], [("BTCUSDT", 7)],
       [("BTCUSDT", 100)], [("BTCUSDT", 102)], [("BTCUSDT", 0)]⟩ ∧
    aget "BTCUSDT"
        (handle_account_update [("BTCUSDT", 0)]
          ⟨[], [("BTCUSDT", true)], [("BTCUSDT", 101)], [("BTCUSDT", 7)],
           [("BTCUSDT", 100)], [("BTCUSDT", 102)], [("BTCUSDT", 0)]⟩).sl_tracker =
      some 7 ∧
    aget "BTCUSDT"
        (handle_account_update [("BTCUSDT", 0)]
          ⟨[], [("BTCUSDT", true)], [("BTCUSDT", 101)], [("BTCUSDT", 7)],
           [("BTCUSDT", 100)], [("BTCUSDT", 102)], [("BTCUSDT", 0)]⟩).entry_price =
      some 100 := by
  refine ⟨rfl, by decide, by decide⟩

theorem handle_account_update_rest_no_add (positions : List (String × ℚ))
    (tp_tracker : List (String × Nat)) (symbol : String)
    (h : aget symbol tp_tracker = none) :
    aget symbol (handle_account_update_rest positions tp_tracker) = none := by
  induction positions generalizing tp_tracker with
  | nil => exact h
  | cons hd rest ih =>
    obtain ⟨s, pa⟩ := hd
    simp only [handle_account_update_rest]
    apply ih
    by_cases hc : pa = 0 ∧ (aget s tp_tracker).isSome
    · rw [if_pos hc]
      by_cases hss : s = symbol
      · subst hss
        exact aget_aerase_self s tp_tracker
      · rw [aget_aerase_other s symbol tp_tracker hss]
        exact h
    · rw [if_neg hc]
      exact h

/-- **C4 amended.** Only the older (`binance_rest.py`) snapshot reacts
to a flat position, and it clears only the symbol's take-profit tracker
entry; the handler in the running app (`binance_websocket.py`) clears
nothing at all, so entry price, best price, trailing flags and the
stop-loss tracker survive a flat position in both versions. -/
theorem flat_position_clears_only_tp_tracker (positions : List (String × ℚ))
    (tp_tracker : List (String × Nat)) (symbol : String)
    (hmem : (symbol, (0:ℚ)) ∈ positions) :
    aget symbol (handle_account_update_rest positions tp_tracker) = none ∧
    (∀ st : SysState, handle_account_update positions st = st) := by
  refine ⟨?_, fun _ => rfl⟩
  induction positions generalizing tp_tracker with
  | nil => cases hmem
  | cons hd rest ih =>
    obtain ⟨s, pa⟩ := hd
    simp only [handle_account_update_rest]
    rcases List.mem_cons.mp hmem with heq | hmem'
    · injection heq with h1 h2
      subst h1
      subst h2
      by_cases htr : (aget symbol tp_tracker).isSome
      · rw [if_pos ⟨rfl, htr⟩]
        exact handle_account_update_rest_no_add rest _ symbol (aget_aerase_self _ _)
      · rw [if_neg (by simp [htr])]
        exact handle_account_update_rest_no_add rest _ symbol
          (Option.not_isSome_iff_eq_none.mp htr)
    · exact ih _ hmem'

/-- Witness for the amended C4: a flat `BTCUSDT` event removes the TP
tracker entry in the older snapshot and nothing in the live handler. -/
theorem flat_position_clears_only_tp_tracker_witness :
    aget "BTCUSDT" (handle_account_update_rest [("BTCUSDT", 0)] [("BTCUSDT", 9)]) = none ∧
    (∀ st : SysState, handle_account_update [("BTCUSDT", 0)] st = st) :=
  flat_position_clears_only_tp_tracker [("BTCUSDT", 0)] [("BTCUSDT", 9)] "BTCUSDT" (by decide)

/-- **C10.** For every filled MARKET order event, the per-symbol
take-profit target is computed from the configured default percent
(`DEFAULT_TAKE_PROFIT_PERCENT`, default 0.5, in the live handler; a
hard-coded 0.5 in the older snapshot), and the result is independent of
whatever take-profit value the originating signal carried (the stored
`last_signal` entries, where that value lives, are neither read nor
written). -/
theorem take_profit_from_default_percent (default_tp_pct : ℚ)
    (resp : Option (List (String × ℚ))) (ev : OrderEvent) (st : SysState)
    (hot : ev.ot = "MARKET") (hX : ev.X = "FILLED") :
    (0 < get_position_amt resp ev.s →
      aget ev.s (handle_order_trade_update default_tp_pct resp ev st).tp_target_price =
        some (ev.ap * (1 + default_tp_pct / 100))) ∧
    (get_position_amt resp ev.s < 0 →
      aget ev.s (handle_order_trade_update default_tp_pct resp ev st).tp_target_price =
        some (ev.ap * (1 - default_tp_pct / 100))) ∧
    (∀ ls, handle_order_trade_update default_tp_pct resp ev { st with last_signal := ls } =
        { handle_order_trade_update default_tp_pct resp ev st with last_signal := ls }) ∧
    (∀ placeRes (rev : RestOrderEvent) (tr : List (String × Nat)),
      rev.X = "FILLED" → rev.o = "MARKET" → rev.S = "BUY" →
      RestAction.placeTakeProfit rev.s "SELL" (pyFixed 1 rev.z)
          (pyFixed 2 (rev.ap * (1 + (1/2) / 100))) ∈
        (handle_order_trade_update_rest placeRes rev tr).2) := by
  refine ⟨?_, ?_, ?_, ?_⟩
  · intro hpos
    simp only [handle_order_trade_update, if_pos (And.intro hot hX), if_pos hpos]
    exact aget_aset_self _ _ _
  · intro hneg
    simp only [handle_order_trade_update, if_pos (And.intro hot hX),
      if_neg (by linarith : ¬ 0 < get_position_amt resp ev.s), if_pos hneg]
    exact aget_aset_self _ _ _
  · intro ls
    simp only [handle_order_trade_update]
    by_cases h1 : ev.ot = "MARKET" ∧ ev.X = "FILLED"
    · rw [if_pos h1, if_pos h1]
      by_cases h2 : 0 < get_position_amt resp ev.s
      · rw [if_pos h2, if_pos h2]
      · rw [if_neg h2, if_neg h2]
        by_cases h3 : get_position_amt resp ev.s < 0
        · rw [if_pos h3, if_pos h3]
        · rw [if_neg h3, if_neg h3]
    · rw [if_neg h1, if_neg h1]
  · intro placeRes rev tr hrX hro hrS
    simp only [handle_order_trade_update_rest, if_pos (And.intro hrX hro), hrS,
      if_pos rfl, ensure_single_tp_order, ws_place_take_profit_order]
    cases aget rev.s tr <;> cases placeRes <;> simp

/-- Witness for C10 on a concrete filled MARKET long fill at average
price 200 with default percent 1/2. -/
theorem take_profit_from_default_percent_witness :
    let ev : OrderEvent := ⟨"LINKUSDT", "FILLED", "MARKET", "BUY", 200, 1⟩
    let st : SysState := ⟨[], [], [], [], [], [], []⟩
    (0 < get_position_amt (some [("LINKUSDT", 5)]) ev.s →
      aget ev.s (handle_order_trade_update (1/2) (some [("LINKUSDT", 5)]) ev st).tp_target_price =
        some (ev.ap * (1 + (1/2) / 100))) ∧
    (get_position_amt (some [("LINKUSDT", 5)]) ev.s < 0 →
      aget ev.s (handle_order_trade_update (1/2) (some [("LINKUSDT", 5)]) ev st).tp_target_price =
        some (ev.ap * (1 - (1/2) / 100))) ∧
    (∀ ls, handle_order_trade_update (1/2) (some [("LINKUSDT", 5)]) ev
        { st with last_signal := ls } =
      { handle_order_trade_update (1/2) (some [("LINKUSDT", 5)]) ev st with last_signal := ls }) ∧
    (∀ placeRes (rev : RestOrderEvent) (tr : List (String × Nat)),
      rev.X = "FILLED" → rev.o = "MARKET" → rev.S = "BUY" →
      RestAction.placeTakeProfit rev.s "SELL" (pyFixed 1 rev.z)
          (pyFixed 2 (rev.ap * (1 + (1/2) / 100))) ∈
        (handle_order_trade_update_rest placeRes rev tr).2) := by
  intro ev st
  exact take_profit_from_default_percent (1/2) (some [("LINKUSDT", 5)]) ev st
    (by decide) (by decide)

/-- **C9 counterexample.** The claim says the attempt counter is reset
to zero on every successful open, so after close–open–close the second
reconnect would wait `min(2^1, 60) = 2` seconds.  The code never resets
the counter: after a successful open it still reads 1, and the second
reconnect waits 4 seconds. -/
theorem reconnect_counter_never_reset :
    (runSupervisor 0 [WsEvent.closed, WsEvent.opened]).1 = 1 ∧
    (runSupervisor 0 [WsEvent.closed, WsEvent.opened]).1 ≠ 0 ∧
    (runSupervisor 0 [WsEvent.closed, WsEvent.opened, WsEvent.closed]).2 = [2, 4] ∧
    (runSupervisor 0 [WsEvent.closed, WsEvent.opened, WsEvent.closed]).2 ≠ [2, 2] := by
  refine ⟨rfl, by decide, rfl, by decide⟩

/-- **C9 amended.** On every stream close or error the supervisor waits
`min(2^attempts, 60)` seconds, where `attempts` counts *all* reconnect
attempts since process start (incremented before the wait is computed);
a successful open leaves the counter unchanged — it is never reset. -/
theorem reconnect_backoff_no_reset :
    (∀ a, superviseStep a WsEvent.opened = (a, none)) ∧
    (∀ a, superviseStep a WsEvent.closed = (a + 1, some (min (2 ^ (a + 1)) 60))) ∧
    (∀ a, superviseStep a WsEvent.errored = (a + 1, some (min (2 ^ (a + 1)) 60))) ∧
    (∀ a es, (runSupervisor a es).1 = a + failCount es) := by
  refine ⟨fun _ => rfl, fun _ => rfl, fun _ => rfl, ?_⟩
  intro a es
  induction es generalizing a with
  | nil => rfl
  | cons e rest ih =>
    cases e <;> simp [runSupervisor, superviseStep, failCount, ih] <;> omega
